import Mathlib

/-!
Verification development for the lwc-preview-extension repository.

Shallow embedding of the pure logic of:
  * `src/utils/componentResolver.ts` (`getComponentInfo`, `getComponentDirectoryPath`)
  * `src/utils/fileSystem.ts` (`shouldCopyFile`, `copyDirectoryOptimized`)
  * `src/utils/errorHandler.ts` (`determineErrorType`, the extractors, `parseLwrError`)
  * `src/services/PreviewPanelManager.ts` (panel state machine)
  * `src/services/ServerManager.ts` (`restart`)

JavaScript strings are modelled by Lean `String`, `null` by `Option`,
thrown exceptions by `Option`/`Except`, machine numbers by `Nat`/`Int`
(sizes and millisecond timestamps are integral in every claim considered).
-/

namespace LwcPreview

/-! ## JavaScript string/array primitives used by the sources -/

/-- Prefix-scan that models JavaScript `String.prototype.includes`
(case-sensitive substring test) on the character list of the string. -/
def listIncludes (sub : List Char) : List Char → Bool
  | [] => sub.isEmpty
  | c :: rest => sub.isPrefixOf (c :: rest) || listIncludes sub rest

/-- Models JavaScript `s.includes(sub)`. -/
def strIncludes (s sub : String) : Bool :=
  listIncludes sub.data s.data

/-- Splits a character list at every occurrence of `sep`; models JavaScript
`String.prototype.split` with a one-character separator (`path.sep`). -/
def splitOnSep (sep : Char) : List Char → List (List Char)
  | [] => [[]]
  | c :: rest =>
    let r := splitOnSep sep rest
    if c = sep then [] :: r
    else
      match r with
      | [] => [[c]]
      | h :: t => (c :: h) :: t

/-- Models JavaScript `s.split('/')` (and `path.sep`-splitting on POSIX). -/
def jsSplit (s : String) : List String :=
  (splitOnSep '/' s.data).map String.mk

/-- Joins segments with `'/'`; models `Array.prototype.join(path.sep)`. -/
def joinSegsChars : List (List Char) → List Char
  | [] => []
  | [x] => x
  | x :: y :: t => x ++ '/' :: joinSegsChars (y :: t)

/-- Models `segments.join('/')`. -/
def joinSegs (l : List String) : String :=
  String.mk (joinSegsChars (l.map String.data))

/-- Models JavaScript `String.prototype.trim` (whitespace strip, both ends). -/
def jsTrim (s : String) : String :=
  String.mk ((((s.data.dropWhile Char.isWhitespace).reverse).dropWhile Char.isWhitespace).reverse)

/-- Helper for `lastIndexOf`: walks the list keeping the index of the most
recent occurrence seen so far. -/
def lastIndexOfAux (x : String) : List String → Nat → Option Nat → Option Nat
  | [], _, acc => acc
  | y :: rest, i, acc => lastIndexOfAux x rest (i + 1) (if y = x then some i else acc)

/-- Models JavaScript `Array.prototype.lastIndexOf` on an array of strings;
the JavaScript result `-1` is modelled as `none`. -/
def lastIndexOf (l : List String) (x : String) : Option Nat :=
  lastIndexOfAux x l 0 none

/-! ## Node `path.posix.normalize` (used by `getComponentInfo`)

The extension runs `path.normalize` / splits on `path.sep`; the embedding
fixes the POSIX platform (`sep = "/"`).  `normSegs` is the segment-level
semantics of Node's `normalizeString`: it drops empty and `"."` segments and
resolves `".."` (popping the previous segment; a leading `".."` is kept for
relative paths and dropped for absolute ones). -/

def normSegs (allowAboveRoot : Bool) : List String → List String → List String
  | acc, [] => acc.reverse
  | acc, seg :: rest =>
    if seg = "" ∨ seg = "." then normSegs allowAboveRoot acc rest
    else if seg = ".." then
      match acc with
      | [] => normSegs allowAboveRoot (if allowAboveRoot then [".."] else []) rest
      | a :: tl =>
        if a = ".." then normSegs allowAboveRoot (if allowAboveRoot then ".." :: a :: tl else a :: tl) rest
        else normSegs allowAboveRoot tl rest
    else normSegs allowAboveRoot (seg :: acc) rest

/-- Models Node `path.posix.normalize`. -/
def pathNormalize (p : String) : String :=
  if p = "" then "." else
  let isAbs : Bool := decide (p.data.headD ' ' = '/')
  let trail : Bool := decide (p.data.getLastD ' ' = '/')
  let segs := normSegs (!isAbs) [] (jsSplit p)
  let body := joinSegs segs
  if body = "" then
    if isAbs then "/" else if trail then "./" else "."
  else
    let body := if trail then body ++ "/" else body
    if isAbs then "/" ++ body else body

/-! ## `src/utils/componentResolver.ts` -/

/-- The `ComponentInfo` record of `componentResolver.ts`. -/
structure ComponentInfo where
  modulePath : String
  componentName : String
  deriving DecidableEq, Repr

/-- Embedding of `getComponentInfo` (componentResolver.ts:26-46): the
falsy-input guard, `path.normalize`, split on `path.sep`, `lastIndexOf('lwc')`,
the bound checks and the empty/whitespace component-name rejection. -/
def getComponentInfo (filePath : String) : Option ComponentInfo :=
  if filePath = "" then none else
  let normalizedPath := pathNormalize filePath
  let pathParts := jsSplit normalizedPath
  match lastIndexOf pathParts "lwc" with
  | none => none
  | some lwcIndex =>
    if pathParts.length - 1 ≤ lwcIndex then none
    else
      let componentName := pathParts.getD (lwcIndex + 1) ""
      if componentName = "" ∨ jsTrim componentName = "" then none
      else some { modulePath := "c/" ++ componentName, componentName := componentName }

/-- Embedding of `getComponentDirectoryPath` (componentResolver.ts:89-99):
splits the *raw* path on `path.sep` (no normalization), finds the last
`'lwc'` segment, and rejoins the segments up to and including the component
folder.  Note that, unlike `getComponentInfo`, it performs no
empty/whitespace check on the component-name segment. -/
def getComponentDirectoryPath (filePath : String) : Option String :=
  let pathParts := jsSplit filePath
  match lastIndexOf pathParts "lwc" with
  | none => none
  | some lwcIndex =>
    if pathParts.length - 1 ≤ lwcIndex then none
    else some (joinSegs (pathParts.take (lwcIndex + 2)))

/-! ## `src/utils/fileSystem.ts`

The Node file system is modelled two ways, matching how the two claims use
it: `shouldCopyFile` is stated over an abstract `stat` oracle (a partial map
from paths to stat records, `none` = path absent / `statSync` throws), and
the recursive copy is stated over directory trees (`FsEntry`).  `fs.Stats`
is reduced to the two fields the code reads: `size` and `mtimeMs`. -/

/-- The two fields of `fs.Stats` read by `shouldCopyFile`. -/
structure Stat where
  size : Nat
  mtimeMs : Int
  deriving DecidableEq, Repr

/-- Embedding of `shouldCopyFile` (fileSystem.ts:66-77) over a stat oracle:
missing destination ⇒ `true`; a failing `statSync` on the source (the
`catch` branch) ⇒ `true`; otherwise newer-mtime-or-different-size. -/
def shouldCopyFile (stat : String → Option Stat) (srcPath destPath : String) : Bool :=
  match stat destPath with
  | none => true
  | some destStats =>
    match stat srcPath with
    | none => true
    | some srcStats =>
      decide (destStats.mtimeMs < srcStats.mtimeMs) || decide (srcStats.size ≠ destStats.size)

/-- A file-system tree: files carry their stat; directories carry their stat
and a named list of children (the `readdirSync` order). -/
inductive FsEntry where
  | file : Stat → FsEntry
  | dir : Stat → List (String × FsEntry) → FsEntry

/-- Models `fs.statSync` on an existing entry. -/
def statOf : FsEntry → Stat
  | .file st => st
  | .dir st _ => st

/-- Child lookup by name (the path `parent/name`). -/
def lookupChild (ch : List (String × FsEntry)) (n : String) : Option FsEntry :=
  (ch.find? (fun c => decide (c.1 = n))).map Prod.snd

/-- Writing the entry at `parent/name`: replaces the first child of that
name, or appends a new child. -/
def setChild : List (String × FsEntry) → String → FsEntry → List (String × FsEntry)
  | [], n, e => [(n, e)]
  | (m, x) :: rest, n, e =>
    if m = n then (m, e) :: rest else (m, x) :: setChild rest n e

/-- Lookup of a (nonempty) relative path below an entry. -/
def lookupPath : FsEntry → List String → Option FsEntry
  | e, [] => some e
  | .file _, _ :: _ => none
  | .dir _ ch, n :: rest =>
    match lookupChild ch n with
    | none => none
    | some c => lookupPath c rest

/-- Lookup of a path below a children list (`lookupPath` one level down). -/
def lookupPathL (ch : List (String × FsEntry)) : List String → Option FsEntry
  | [] => none
  | n :: rest =>
    match lookupChild ch n with
    | none => none
    | some c => lookupPath c rest

/-- Real directory listings have pairwise-distinct names at every level. -/
inductive WfE : FsEntry → Prop where
  | file (st : Stat) : WfE (.file st)
  | dir (st : Stat) (ch : List (String × FsEntry))
      (hnodup : (ch.map Prod.fst).Nodup)
      (hch : ∀ p ∈ ch, WfE p.2) : WfE (.dir st ch)

/-- Well-formedness of a children list. -/
def WfL (ch : List (String × FsEntry)) : Prop :=
  (ch.map Prod.fst).Nodup ∧ ∀ p ∈ ch, WfE p.2

/-- The `CopyProgress` record of `src/types` (the spec's `SyncState`). -/
structure CopyProgress where
  copied : Nat
  skipped : Nat
  deriving DecidableEq, Repr

/-- The `shouldCopyFile(srcPath, destPath)` test as evaluated inside the directory
walk: the source entry is a file whose stat is known and the destination
slot holds `destE` (both `fs.existsSync(destPath)` and the two `statSync`
calls are answered by the tree). -/
def shouldCopyEntry (srcStat : Stat) (destE : Option FsEntry) : Bool :=
  match destE with
  | none => true
  | some d =>
    decide ((statOf d).mtimeMs < srcStat.mtimeMs) || decide (srcStat.size ≠ (statOf d).size)

/-- The body of `copyDirectoryOptimized` (fileSystem.ts:125-175): one
invocation's `for`-loop over the source entries of one directory, with that
invocation's own `copiedCount`/`skippedCount` and the shared `onProgress`
callback modelled as an accumulated report list.  `d` is the current state
of the destination directory (`ensureDirectory` has already run on it).
`none` models a thrown `FileSyncError`:
  * copying a file whose destination parent is a file (`copyFileSync`
    ENOTDIR), or whose destination slot is a directory (EISDIR);
  * recursing into a subdirectory whose destination parent is a file
    (`mkdirSync` ENOTDIR).
A copied file receives the source size and the copy-time mtime `now`;
a directory created by `ensureDirectory` receives stat `⟨0, now⟩`.
The in-loop report fires after each file when `copiedCount % 5 === 0`;
the final report fires only when `copiedCount > 0`. -/
def copyGo (now : Int) : List (String × FsEntry) → FsEntry → Nat → Nat →
    List CopyProgress → Option (FsEntry × List CopyProgress)
  | [], d, copied, skipped, reports =>
    some (d, if 0 < copied then reports ++ [⟨copied, skipped⟩] else reports)
  | (name, .file st) :: rest, d, copied, skipped, reports =>
    match d with
    | .file _ => none
    | .dir dst ch =>
      if shouldCopyEntry st (lookupChild ch name) then
        match lookupChild ch name with
        | some (.dir _ _) => none
        | _ =>
          let d1 := FsEntry.dir dst (setChild ch name (.file ⟨st.size, now⟩))
          let reports1 :=
            if (copied + 1) % 5 = 0 then reports ++ [⟨copied + 1, skipped⟩] else reports
          copyGo now rest d1 (copied + 1) skipped reports1
      else
        let reports1 :=
          if copied % 5 = 0 then reports ++ [⟨copied, skipped + 1⟩] else reports
        copyGo now rest d copied (skipped + 1) reports1
  | (name, .dir _ sch) :: rest, d, copied, skipped, reports =>
    match d with
    | .file _ => none
    | .dir dst ch =>
      let childDest :=
        match lookupChild ch name with
        | none => FsEntry.dir ⟨0, now⟩ []
        | some e => e
      match copyGo now sch childDest 0 0 [] with
      | none => none
      | some (newChild, subReports) =>
        copyGo now rest (FsEntry.dir dst (setChild ch name newChild)) copied skipped
          (reports ++ subReports)

/-- Embedding of `copyDirectoryOptimized(src, dest, onProgress)`: `src` is
the existing source entry (`existsSync(src)` already true; `readdirSync` on
a plain file throws, modelled `none`), `dest` the current destination slot
(`none` = missing; `ensureDirectory` then creates an empty directory, and an
existing entry — even a plain file — is left as is). -/
def copyDirectoryOptimized (now : Int) (src : FsEntry) (dest : Option FsEntry) :
    Option (FsEntry × List CopyProgress) :=
  match src with
  | .file _ => none
  | .dir _ entries =>
    let dest0 :=
      match dest with
      | none => FsEntry.dir ⟨0, now⟩ []
      | some e => e
    copyGo now entries dest0 0 0 []

/-! ## `src/utils/errorHandler.ts`

The five regex-based extractors are embedded as character-list scanners with
the exact semantics of the JavaScript patterns on the inputs they are given:
leftmost match, greedy runs (`\d+`, `[^\n]+`, `[^'"]+`) followed by a
one-character requirement, so backtracking never changes the outcome. -/

/-- The `LwrErrorType` enum; `lwrErrorTypeStr` below gives its string values. -/
inductive LwrErrorType where
  | lwcCompilation
  | template
  | moduleResolution
  | jsSyntax
  | generic
  deriving DecidableEq, Repr

/-- The string value of each `LwrErrorType` enum member. -/
def lwrErrorTypeStr : LwrErrorType → String
  | .lwcCompilation => "LWC Compilation Error"
  | .template => "LWC Template Error"
  | .moduleResolution => "Module Resolution Error"
  | .jsSyntax => "JavaScript Syntax Error"
  | .generic => "LWR Server Error"

/-- The `LwrErrorInfo` record of `src/types`. -/
structure LwrErrorInfo where
  message : String
  stack : String
  deriving DecidableEq, Repr

/-- Leftmost application of a positional matcher: tries `f` on every suffix,
left to right — the scan order of an unanchored JavaScript regex. -/
def firstMatch {α : Type} (f : List Char → Option α) : List Char → Option α
  | [] => none
  | c :: rest =>
    match f (c :: rest) with
    | some r => some r
    | none => firstMatch f rest

/-- Matches `/LWC\d+:([^\n]+)/` at one position: literal `LWC`, a nonempty digit
run, `':'`, then a nonempty capture up to end of line. -/
def tryLwcAt : List Char → Option (List Char)
  | 'L' :: 'W' :: 'C' :: rest =>
    let ds := rest.takeWhile Char.isDigit
    if ds.isEmpty then none
    else
      match rest.drop ds.length with
      | ':' :: tail =>
        let cap := tail.takeWhile (fun c => !(c = '\n'))
        if cap.isEmpty then none else some cap
      | _ => none
  | _ => none

/-- Models `output.split('\n')[0]`. -/
def firstLine (output : String) : String :=
  (splitOnSep '\n' output.data).headD [] |> String.mk

/-- Embedding of `extractLwcError` (errorHandler.ts:48-51). -/
def extractLwcError (output : String) : String :=
  match firstMatch tryLwcAt output.data with
  | some cap => jsTrim (String.mk cap)
  | none => firstLine output

/-- Embedding of `extractTemplateError` (errorHandler.ts:56-64): first line
containing `'error'` whose trim is nonempty, else the first line. -/
def extractTemplateError (output : String) : String :=
  let lines := (splitOnSep '\n' output.data).map String.mk
  match lines.find? (fun line => strIncludes line "error" && !(jsTrim line = "")) with
  | some line => jsTrim line
  | none => firstLine output

/-- Matches `/Cannot find module ['"]([^'"]+)['"]/` at one position. -/
def tryModuleAt (l : List Char) : Option (List Char) :=
  let lit := "Cannot find module ".data
  let isQuote : Char → Bool := fun c => c = Char.ofNat 39 || c = Char.ofNat 34
  if lit.isPrefixOf l then
    match l.drop lit.length with
    | q :: tail =>
      if isQuote q then
        let cap := tail.takeWhile (fun c => !(isQuote c))
        if cap.isEmpty then none
        else
          match tail.drop cap.length with
          | q2 :: _ => if isQuote q2 then some cap else none
          | [] => none
      else none
    | [] => none
  else none

/-- Embedding of `extractModuleError` (errorHandler.ts:69-75). -/
def extractModuleError (output : String) : String :=
  match firstMatch tryModuleAt output.data with
  | some cap => "Cannot find module \"" ++ String.mk cap ++ "\". Check your imports."
  | none => firstLine output

/-- A literal followed by a nonempty `[^\n]+` capture, at one position. -/
def tryLitLineAt (lit : List Char) (l : List Char) : Option (List Char) :=
  if lit.isPrefixOf l then
    let cap := (l.drop lit.length).takeWhile (fun c => !(c = '\n'))
    if cap.isEmpty then none else some cap
  else none

/-- Embedding of `extractSyntaxError` (errorHandler.ts:80-83):
`/SyntaxError: ([^\n]+)/`. -/
def extractSyntaxError (output : String) : String :=
  match firstMatch (tryLitLineAt "SyntaxError: ".data) output.data with
  | some cap => jsTrim (String.mk cap)
  | none => firstLine output

/-- Embedding of `extractGenericError` (errorHandler.ts:88-95):
`/Error: ([^\n]+)/`, else the first line with nonempty trim, else the whole
output. -/
def extractGenericError (output : String) : String :=
  match firstMatch (tryLitLineAt "Error: ".data) output.data with
  | some cap => jsTrim (String.mk cap)
  | none =>
    let lines := ((splitOnSep '\n' output.data).map String.mk).filter
      (fun line => !(jsTrim line = ""))
    match lines with
    | [] => output
    | l :: _ => l

/-- Embedding of `determineErrorType` (errorHandler.ts:101-114): the five
checks in priority order, `none` when no marker matches. -/
def determineErrorType (errorOutput : String) : Option LwrErrorType :=
  if strIncludes errorOutput "LWC1" then some .lwcCompilation
  else if strIncludes errorOutput "template" && strIncludes errorOutput "error" then
    some .template
  else if strIncludes errorOutput "Cannot find module" || strIncludes errorOutput "Module not found" then
    some .moduleResolution
  else if strIncludes errorOutput "SyntaxError" || strIncludes errorOutput "Unexpected token" then
    some .jsSyntax
  else if strIncludes errorOutput "Error:" || strIncludes errorOutput "ERROR" then
    some .generic
  else none

/-- Embedding of `extractErrorMessage` (errorHandler.ts:119-133). -/
def extractErrorMessage (errorOutput : String) : LwrErrorType → String
  | .lwcCompilation => extractLwcError errorOutput
  | .template => extractTemplateError errorOutput
  | .moduleResolution => extractModuleError errorOutput
  | .jsSyntax => extractSyntaxError errorOutput
  | .generic => extractGenericError errorOutput

/-- Embedding of `parseLwrError` (errorHandler.ts:138-153): the outer
case-sensitive guard (`'Error'` or `'LWC1'` must occur), then the
classifier, then `"<enum value>: <extracted message>"` with the raw chunk
as the stack. -/
def parseLwrError (errorOutput : String) : Option LwrErrorInfo :=
  if !(strIncludes errorOutput "Error") && !(strIncludes errorOutput "LWC1") then none
  else
    match determineErrorType errorOutput with
    | none => none
    | some errorType =>
      some { message := lwrErrorTypeStr errorType ++ ": " ++ extractErrorMessage errorOutput errorType,
             stack := errorOutput }

/-! ## `src/services/PreviewPanelManager.ts`

The manager is a state machine over the fields `previewPanel` (here
`panelOpen`, since the class holds at most a reference to one panel),
`currentComponentName`, `hasActiveError` and `autoOpenEnabled`.  Calls into
the VS Code webview API are recorded in an event trace: panel creation and
reveal, `webview.html` assignments (abstracted to which template was
rendered, with its arguments) and `postMessage` payloads.  A delivered
message is a `messagePosted` event. -/

/-- The `LWR_SERVER_PORT` constant. -/
def LWR_SERVER_PORT : Nat := 8347

/-- The `postMessage` payloads of `src/types` sent by the manager. -/
inductive PMsg where
  | updateComponent (componentName : Option String)
  | updateLoadingState (isLoading : Bool) (text : Option String)
  | lwrError (errorMessage errorStack : String)
  | clearLwrError
  deriving DecidableEq, Repr

/-- Possible `webview.html` contents, abstracted to the generating template and its
arguments (`getLoadingHtml()` / `getPreviewHtml(name, port, autoOpen)`). -/
inductive PHtml where
  | loading
  | preview (componentName : String) (port : Nat) (autoOpen : Bool)
  deriving DecidableEq, Repr

/-- Observable interactions with the VS Code webview API. -/
inductive PEvent where
  | panelCreated
  | panelRevealed
  | panelDisposed
  | htmlSet (h : PHtml)
  | messagePosted (m : PMsg)
  deriving DecidableEq, Repr

/-- The manager's state plus the trace of webview interactions so far. -/
structure PanelState where
  panelOpen : Bool
  currentComponentName : Option String
  hasActiveError : Bool
  autoOpenEnabled : Bool
  events : List PEvent
  deriving DecidableEq, Repr

/-- The `componentInfo?.componentName || ''` argument of
`showPreviewContent`. -/
def ciName : Option ComponentInfo → String
  | none => ""
  | some ci => ci.componentName

/-- Embedding of the private `showPreviewContent`. -/
def showPreviewContent (ci : Option ComponentInfo) (st : PanelState) : PanelState :=
  if st.panelOpen then
    { st with events := st.events ++ [.htmlSet (.preview (ciName ci) LWR_SERVER_PORT st.autoOpenEnabled)] }
  else st

/-- Embedding of `show` (PreviewPanelManager.ts:107-157): an existing panel
is revealed and, only when the server is ready, gets fresh preview content;
otherwise a panel is created and shows the loading page until ready. -/
def showPanel (ci : Option ComponentInfo) (serverReady : Bool) (st : PanelState) : PanelState :=
  if st.panelOpen then
    let st := { st with events := st.events ++ [.panelRevealed] }
    if serverReady then showPreviewContent ci st else st
  else
    let st := { st with panelOpen := true, events := st.events ++ [.panelCreated] }
    if !serverReady then { st with events := st.events ++ [.htmlSet .loading] }
    else showPreviewContent ci st

/-- Embedding of `close` (and of the `onDidDispose` handler, which resets
the same two fields when the panel goes away). -/
def closePanel (st : PanelState) : PanelState :=
  if st.panelOpen then
    { st with panelOpen := false, currentComponentName := none,
              events := st.events ++ [.panelDisposed] }
  else st

/-- Embedding of `updateComponent` (PreviewPanelManager.ts:184-192). -/
def updateComponent (componentName : Option String) (st : PanelState) : PanelState :=
  if st.panelOpen then
    { st with events := st.events ++ [.messagePosted (.updateComponent componentName)],
              hasActiveError := false }
  else st

/-- Embedding of `updateLoadingState`. -/
def updateLoadingState (isLoading : Bool) (text : Option String) (st : PanelState) : PanelState :=
  if st.panelOpen then
    { st with events := st.events ++ [.messagePosted (.updateLoadingState isLoading text)] }
  else st

/-- Embedding of `sendLwrError` (PreviewPanelManager.ts:210-231): delivers
only when a panel is live and no error is already active, then latches
`hasActiveError`. -/
def sendLwrError (errorInfo : LwrErrorInfo) (st : PanelState) : PanelState :=
  if st.panelOpen && !st.hasActiveError then
    { st with events := st.events ++ [.messagePosted (.lwrError errorInfo.message errorInfo.stack)],
              hasActiveError := true }
  else st

/-- Embedding of `clearLwrError`. -/
def clearLwrError (st : PanelState) : PanelState :=
  if st.panelOpen && st.hasActiveError then
    { st with events := st.events ++ [.messagePosted .clearLwrError],
              hasActiveError := false }
  else st

/-- Embedding of `onServerReady`. -/
def onServerReady (ci : Option ComponentInfo) (st : PanelState) : PanelState :=
  if st.panelOpen then showPreviewContent ci st else st

/-- Embedding of `setCurrentComponentName`. -/
def setCurrentComponentName (n : Option String) (st : PanelState) : PanelState :=
  { st with currentComponentName := n }

/-- Embedding of `toggleAutoOpen`'s state effect. -/
def toggleAutoOpen (enabled : Bool) (st : PanelState) : PanelState :=
  { st with autoOpenEnabled := enabled }

/-- Occurrence count of one event in a trace. -/
def countEv (e : PEvent) : List PEvent → Nat
  | [] => 0
  | x :: rest => (if x = e then 1 else 0) + countEv e rest

/-- Number of live surfaces: panels created and not yet disposed. -/
def liveSurfaces (st : PanelState) : Nat :=
  countEv .panelCreated st.events - countEv .panelDisposed st.events

/-- States reachable from a fresh manager (constructor state: no panel, no
component, no active error, any configured auto-open preference) through the
public operations and the dispose event. -/
inductive PanelReachable : PanelState → Prop where
  | init (autoOpen : Bool) :
      PanelReachable ⟨false, none, false, autoOpen, []⟩
  | stepShow {st} (ci : Option ComponentInfo) (ready : Bool) :
      PanelReachable st → PanelReachable (showPanel ci ready st)
  | stepClose {st} :
      PanelReachable st → PanelReachable (closePanel st)
  | stepUpdateComponent {st} (n : Option String) :
      PanelReachable st → PanelReachable (updateComponent n st)
  | stepUpdateLoadingState {st} (b : Bool) (t : Option String) :
      PanelReachable st → PanelReachable (updateLoadingState b t st)
  | stepSendLwrError {st} (info : LwrErrorInfo) :
      PanelReachable st → PanelReachable (sendLwrError info st)
  | stepClearLwrError {st} :
      PanelReachable st → PanelReachable (clearLwrError st)
  | stepOnServerReady {st} (ci : Option ComponentInfo) :
      PanelReachable st → PanelReachable (onServerReady ci st)
  | stepSetCurrentComponentName {st} (n : Option String) :
      PanelReachable st → PanelReachable (setCurrentComponentName n st)
  | stepToggleAutoOpen {st} (b : Bool) :
      PanelReachable st → PanelReachable (toggleAutoOpen b st)

/-! ## `src/services/ServerManager.ts` — `restart`

`restart` (ServerManager.ts:164-189) is a straight-line composition whose
only data dependence is on when `_serverReady` (set asynchronously by the
stdout listener) becomes observable.  The environment is a readiness oracle
`ready : Nat → Bool` giving the value of `_serverReady` at the k-th poll
(`elapsed = 100·k` milliseconds after `start()`).  The `while` loop checks
at `elapsed = 0, 100, …, 59900` — `60000 / 100` polls — so it is embedded
with that poll budget as fuel. -/

/-- Settle delay between `stop()` and `start()` (ms). -/
def RESTART_SETTLE_MS : Nat := 2000

/-- Poll interval of the readiness loop (ms). -/
def RESTART_CHECK_INTERVAL_MS : Nat := 100

/-- Ceiling of the readiness loop (ms). -/
def RESTART_MAX_WAIT_MS : Nat := 60000

/-- The message of the `Error` thrown when the ceiling elapses (the spec's
`ServerStartFailure`). -/
def restartFailureMsg : String :=
  "Server failed to restart. Check the Output panel for details."

/-- The effects of `restart` visible outside the manager. -/
inductive RAction where
  | stopCalled
  | waitedMs (ms : Nat)
  | startCalled
  deriving DecidableEq, Repr

/-- The readiness-polling loop: returns the index of the first successful
poll, or the thrown failure after the budget is exhausted. -/
def pollLoop (ready : Nat → Bool) : Nat → Nat → Except String Nat
  | _, 0 => .error restartFailureMsg
  | k, budget + 1 => if ready k then .ok k else pollLoop ready (k + 1) budget

/-- Embedding of `restart`: `stop()`, a fixed 2000 ms settle wait,
`start()`, then the polling loop with budget `60000 / 100`. -/
def restartModel (ready : Nat → Bool) : List RAction × Except String Nat :=
  ([.stopCalled, .waitedMs RESTART_SETTLE_MS, .startCalled],
   pollLoop ready 0 (RESTART_MAX_WAIT_MS / RESTART_CHECK_INTERVAL_MS))

/-! ## Helper lemmas -/

theorem lastIndexOfAux_of_not_mem (x : String) :
    ∀ (l : List String), x ∉ l → ∀ i acc, lastIndexOfAux x l i acc = acc := by
  intro l
  induction l with
  | nil => intro _ i acc; rfl
  | cons y rest ih =>
    intro h i acc
    have hy : ¬(y = x) := fun he => h (he ▸ List.mem_cons_self y rest)
    have hrest : x ∉ rest := fun hm => h (List.mem_cons_of_mem y hm)
    simp only [lastIndexOfAux, if_neg hy]
    exact ih hrest (i + 1) acc

theorem lastIndexOf_eq_none {l : List String} {x : String} (h : x ∉ l) :
    lastIndexOf l x = none :=
  lastIndexOfAux_of_not_mem x l h 0 none

/-! ## Claims about `shouldCopyFile` and `parseLwrError` -/

/-- C2. `shouldCopyFile` returns `true` if the destination does not exist,
or the source's modification time is strictly greater than the
destination's, or their byte sizes differ; it returns `false` whenever the
destination exists, has the source's size, and a modification time at least
the source's. -/
theorem shouldCopyFile_spec (stat : String → Option Stat) (src dest : String) :
    (stat dest = none → shouldCopyFile stat src dest = true) ∧
    (∀ s d, stat src = some s → stat dest = some d →
      ((d.mtimeMs < s.mtimeMs ∨ s.size ≠ d.size) → shouldCopyFile stat src dest = true) ∧
      (s.size = d.size → s.mtimeMs ≤ d.mtimeMs → shouldCopyFile stat src dest = false)) := by
  refine ⟨fun h => by simp [shouldCopyFile, h], fun s d hs hd => ⟨fun hor => ?_, fun hsz hmt => ?_⟩⟩
  · rcases hor with h | h <;> simp [shouldCopyFile, hs, hd, h]
  · have : ¬(d.mtimeMs < s.mtimeMs) := not_lt.mpr hmt
    simp [shouldCopyFile, hs, hd, hsz, this]

/-- Witness for C2: destination present, equal size, newer mtime ⇒ `false`. -/
theorem shouldCopyFile_spec_witness :
    shouldCopyFile
      (fun p => if p = "src/a.js" then some ⟨7, 100⟩ else
                if p = "dest/a.js" then some ⟨7, 250⟩ else none)
      "src/a.js" "dest/a.js" = false := by
  exact ((shouldCopyFile_spec _ "src/a.js" "dest/a.js").2 ⟨7, 100⟩ ⟨7, 250⟩
    (by decide) (by decide)).2 (by decide) (by decide)

/-- C10. If a chunk contains neither the case-sensitive substring `Error`
nor `LWC1`, `parseLwrError` returns `none` — including chunks containing
`ERROR` or `Unexpected token`, which `determineErrorType` itself would
classify: the outer guard is strictly stronger than the classifier's
triggers. -/
theorem parseLwrError_guard_spec :
    (∀ s, strIncludes s "Error" = false → strIncludes s "LWC1" = false →
      parseLwrError s = none) ∧
    (parseLwrError "ERROR: kaboom" = none ∧ determineErrorType "ERROR: kaboom" ≠ none) ∧
    (parseLwrError "Unexpected token )" = none ∧
      determineErrorType "Unexpected token )" ≠ none) := by
  refine ⟨fun s h1 h2 => ?_, ⟨by decide, by decide⟩, ⟨by decide, by decide⟩⟩
  simp [parseLwrError, h1, h2]

/-- Witness for C10 at a concrete guard-rejected chunk. -/
theorem parseLwrError_guard_spec_witness :
    parseLwrError "warning: deprecated API" = none :=
  parseLwrError_guard_spec.1 "warning: deprecated API" (by decide) (by decide)

/-- C4. `determineErrorType` tries the five categories in priority order —
`LWC1`, then `template`+`error`, then module-not-found phrasing, then
syntax-error keywords, then the generic `Error:`/`ERROR` tokens — returns
`none` when no category matches (in which case `parseLwrError` delivers
nothing), and a chunk of the form `LWC<digits>: Unexpected token` is
classified as LWC-compilation with the code prefix stripped from the
extracted message. -/
theorem determineErrorType_spec :
    (∀ s, strIncludes s "LWC1" = true → determineErrorType s = some .lwcCompilation) ∧
    (∀ s, strIncludes s "LWC1" = false →
      (strIncludes s "template" && strIncludes s "error") = true →
      determineErrorType s = some .template) ∧
    (∀ s, strIncludes s "LWC1" = false →
      (strIncludes s "template" && strIncludes s "error") = false →
      (strIncludes s "Cannot find module" || strIncludes s "Module not found") = true →
      determineErrorType s = some .moduleResolution) ∧
    (∀ s, strIncludes s "LWC1" = false →
      (strIncludes s "template" && strIncludes s "error") = false →
      (strIncludes s "Cannot find module" || strIncludes s "Module not found") = false →
      (strIncludes s "SyntaxError" || strIncludes s "Unexpected token") = true →
      determineErrorType s = some .jsSyntax) ∧
    (∀ s, strIncludes s "LWC1" = false →
      (strIncludes s "template" && strIncludes s "error") = false →
      (strIncludes s "Cannot find module" || strIncludes s "Module not found") = false →
      (strIncludes s "SyntaxError" || strIncludes s "Unexpected token") = false →
      (strIncludes s "Error:" || strIncludes s "ERROR") = true →
      determineErrorType s = some .generic) ∧
    (∀ s, strIncludes s "LWC1" = false →
      (strIncludes s "template" && strIncludes s "error") = false →
      (strIncludes s "Cannot find module" || strIncludes s "Module not found") = false →
      (strIncludes s "SyntaxError" || strIncludes s "Unexpected token") = false →
      (strIncludes s "Error:" || strIncludes s "ERROR") = false →
      determineErrorType s = none) ∧
    (∀ s, determineErrorType s = none → parseLwrError s = none) ∧
    parseLwrError "LWC1058: Unexpected token" =
      some ⟨"LWC Compilation Error: Unexpected token", "LWC1058: Unexpected token"⟩ := by
  refine ⟨fun s h1 => by simp [determineErrorType, h1],
          fun s h1 h2 => by simp [determineErrorType, h1, h2],
          fun s h1 h2 h3 => by simp [determineErrorType, h1, h2, h3],
          fun s h1 h2 h3 h4 => by simp [determineErrorType, h1, h2, h3, h4],
          fun s h1 h2 h3 h4 h5 => by simp [determineErrorType, h1, h2, h3, h4, h5],
          fun s h1 h2 h3 h4 h5 => by simp [determineErrorType, h1, h2, h3, h4, h5],
          fun s h => ?_, by decide⟩
  unfold parseLwrError
  rw [h]
  split <;> rfl

/-- Witness for C4: priority and the null case at concrete chunks. -/
theorem determineErrorType_spec_witness :
    determineErrorType "LWC1content template error SyntaxError" = some LwrErrorType.lwcCompilation ∧
    determineErrorType "ordinary log line" = none ∧
    parseLwrError "ordinary log line" = none := by
  refine ⟨determineErrorType_spec.1 _ (by decide), ?_, ?_⟩
  · exact determineErrorType_spec.2.2.2.2.2.1 _ (by decide) (by decide) (by decide)
      (by decide) (by decide)
  · exact determineErrorType_spec.2.2.2.2.2.2.1 _
      (determineErrorType_spec.2.2.2.2.2.1 _ (by decide) (by decide) (by decide)
        (by decide) (by decide))

/-! ## Claims about the component resolver -/

/-- C1. `getComponentInfo` normalizes the path, splits it on the separator
and takes the last `'lwc'` segment: absent or final ⇒ `none`; next segment
whitespace-only ⇒ `none`; otherwise the next segment `name` yields
`{componentName := name, modulePath := "c/" ++ name}`. -/
theorem getComponentInfo_spec (p : String) :
    (("lwc" ∉ jsSplit (pathNormalize p)) → getComponentInfo p = none) ∧
    (∀ i, lastIndexOf (jsSplit (pathNormalize p)) "lwc" = some i →
      ((jsSplit (pathNormalize p)).length - 1 ≤ i → getComponentInfo p = none) ∧
      (∀ name, i + 1 ≤ (jsSplit (pathNormalize p)).length - 1 →
        (jsSplit (pathNormalize p)).getD (i + 1) "" = name →
        (jsTrim name = "" → getComponentInfo p = none) ∧
        (jsTrim name ≠ "" →
          getComponentInfo p = some ⟨"c/" ++ name, name⟩))) := by
  by_cases hp : p = ""
  · subst hp
    refine ⟨fun _ => rfl, fun i hi => ?_⟩
    have hnone : lastIndexOf (jsSplit (pathNormalize "")) "lwc" = none := by decide
    rw [hnone] at hi
    cases hi
  · refine ⟨fun hmem => ?_, fun i hi => ⟨fun hfin => ?_, fun name hlt hname => ⟨fun ht => ?_, fun ht => ?_⟩⟩⟩
    · simp [getComponentInfo, hp, lastIndexOf_eq_none hmem]
    · simp [getComponentInfo, hp, hi, hfin]
    · subst hname
      have hnotfin : ¬((jsSplit (pathNormalize p)).length - 1 ≤ i) := by omega
      rw [List.getD_eq_getElem?_getD] at ht
      simp [getComponentInfo, hp, hi, hnotfin, ht]
    · subst hname
      have hne : (jsSplit (pathNormalize p)).getD (i + 1) "" ≠ "" := by
        intro h0
        exact ht (by rw [h0]; rfl)
      have hnotfin : ¬((jsSplit (pathNormalize p)).length - 1 ≤ i) := by omega
      rw [List.getD_eq_getElem?_getD] at ht hne
      simp [getComponentInfo, hp, hi, hnotfin, ht, hne]

/-- Witness for C1 at a standard SFDX component path. -/
theorem getComponentInfo_spec_witness :
    getComponentInfo "/r/force-app/main/default/lwc/hello/hello.html" =
      some ⟨"c/hello", "hello"⟩ :=
  (((getComponentInfo_spec "/r/force-app/main/default/lwc/hello/hello.html").2
      5 (by decide)).2 "hello" (by decide) (by decide)).2 (by decide)

/-- Counterexample for C9 as stated: the claim predicts `none` for a
whitespace-only component-name segment (same failure conditions as
`getComponentInfo`), but `getComponentDirectoryPath` has no such check:
on `"lwc/ /x"` it returns `some "lwc/ "` while `getComponentInfo` returns
`none`. -/
theorem getComponentDirectoryPath_claim_cex :
    getComponentDirectoryPath "lwc/ /x" = some "lwc/ " ∧
    getComponentInfo "lwc/ /x" = none := by
  decide

/-- C9 (amended). `getComponentDirectoryPath` splits the raw path on the
separator, and returns `none` exactly when the last `'lwc'` segment is
absent or final; otherwise — with no emptiness/whitespace check on the
component-name segment — it returns the segments up to one below the
marker, rejoined. -/
theorem getComponentDirectoryPath_spec (p : String) :
    (("lwc" ∉ jsSplit p) → getComponentDirectoryPath p = none) ∧
    (∀ i, lastIndexOf (jsSplit p) "lwc" = some i →
      (((jsSplit p).length - 1 ≤ i) → getComponentDirectoryPath p = none) ∧
      (i + 1 ≤ (jsSplit p).length - 1 →
        getComponentDirectoryPath p = some (joinSegs ((jsSplit p).take (i + 2))))) := by
  refine ⟨fun hmem => ?_, fun i hi => ⟨fun hfin => ?_, fun hlt => ?_⟩⟩
  · simp [getComponentDirectoryPath, lastIndexOf_eq_none hmem]
  · simp [getComponentDirectoryPath, hi, hfin]
  · have hnotfin : ¬((jsSplit p).length - 1 ≤ i) := by omega
    simp [getComponentDirectoryPath, hi, hnotfin]

/-- Witness for C9's amended statement. -/
theorem getComponentDirectoryPath_spec_witness :
    getComponentDirectoryPath "a/lwc/cmp/f.js" = some "a/lwc/cmp" := by
  have h := ((getComponentDirectoryPath_spec "a/lwc/cmp/f.js").2 1 (by decide)).2 (by decide)
  exact h.trans (by decide)

/-! ## Claims about the preview panel manager -/

/-- C5. Once `sendLwrError` has latched `hasActiveError`, further
`sendLwrError` calls change nothing (no message is delivered) until
`clearLwrError` or `updateComponent` resets the flag, after which delivery
resumes; two consecutive sends from a live, error-free panel deliver
exactly one error message. -/
theorem sendLwrError_spec :
    (∀ st info, st.hasActiveError = true → sendLwrError info st = st) ∧
    (∀ st i1 i2, st.panelOpen = true → st.hasActiveError = false →
      (sendLwrError i2 (sendLwrError i1 st)).events =
        st.events ++ [.messagePosted (.lwrError i1.message i1.stack)] ∧
      (sendLwrError i2 (sendLwrError i1 st)).hasActiveError = true) ∧
    (∀ st, st.panelOpen = true →
      (clearLwrError st).hasActiveError = false ∧
      ∀ n, (updateComponent n st).hasActiveError = false) ∧
    (∀ st info n, st.panelOpen = true →
      (sendLwrError info (updateComponent n st)).events =
        st.events ++ [.messagePosted (.updateComponent n),
                      .messagePosted (.lwrError info.message info.stack)]) ∧
    (∀ st info, st.panelOpen = true → st.hasActiveError = true →
      (sendLwrError info (clearLwrError st)).events =
        st.events ++ [.messagePosted .clearLwrError,
                      .messagePosted (.lwrError info.message info.stack)]) := by
  refine ⟨fun st info h => ?_, fun st i1 i2 ho he => ?_, fun st ho => ?_,
          fun st info n ho => ?_, fun st info ho he => ?_⟩
  · simp [sendLwrError, h]
  · simp [sendLwrError, ho, he]
  · cases hae : st.hasActiveError <;>
      simp [clearLwrError, updateComponent, ho, hae]
  · simp [sendLwrError, updateComponent, ho]
  · simp [sendLwrError, clearLwrError, ho, he]

/-- Witness for C5: a live panel with an active error drops a second send. -/
theorem sendLwrError_spec_witness :
    sendLwrError ⟨"m2", "s2"⟩ ⟨true, none, true, true, []⟩ =
      (⟨true, none, true, true, []⟩ : PanelState) :=
  sendLwrError_spec.1 ⟨true, none, true, true, []⟩ ⟨"m2", "s2"⟩ rfl

/-! ## Claim about `ServerManager.restart` -/

theorem pollLoop_ok_sound (ready : Nat → Bool) :
    ∀ budget k j, pollLoop ready k budget = .ok j →
      k ≤ j ∧ j < k + budget ∧ ready j = true ∧
      ∀ m, k ≤ m → m < j → ready m = false := by
  intro budget
  induction budget with
  | zero => intro k j h; cases h
  | succ b ih =>
    intro k j h
    by_cases hr : ready k = true
    · rw [pollLoop, if_pos hr] at h
      cases h
      exact ⟨le_refl k, by omega, hr, fun m h1 h2 => absurd h2 (by omega)⟩
    · rw [pollLoop, if_neg hr] at h
      obtain ⟨h1, h2, h3, h4⟩ := ih (k + 1) j h
      refine ⟨by omega, by omega, h3, fun m hm1 hm2 => ?_⟩
      rcases Nat.eq_or_lt_of_le hm1 with rfl | hgt
      · exact Bool.not_eq_true _ ▸ (by simpa using hr)
      · exact h4 m (by omega) hm2

theorem pollLoop_error_of_never (ready : Nat → Bool) :
    ∀ budget k, (∀ m, k ≤ m → m < k + budget → ready m = false) →
      pollLoop ready k budget = .error restartFailureMsg := by
  intro budget
  induction budget with
  | zero => intro k _; rfl
  | succ b ih =>
    intro k h
    have hr : ready k = false := h k (le_refl k) (by omega)
    rw [pollLoop, if_neg (by simp [hr])]
    exact ih (k + 1) (fun m hm1 hm2 => h m (by omega) (by omega))

theorem pollLoop_ok_of_ready (ready : Nat → Bool) :
    ∀ budget k j, k ≤ j → j < k + budget → ready j = true →
      ∃ j0, j0 ≤ j ∧ pollLoop ready k budget = .ok j0 := by
  intro budget
  induction budget with
  | zero => intro k j h1 h2 _; omega
  | succ b ih =>
    intro k j h1 h2 hj
    by_cases hr : ready k = true
    · exact ⟨k, h1, by rw [pollLoop, if_pos hr]⟩
    · have hkj : k ≠ j := fun he => hr (he ▸ hj)
      obtain ⟨j0, hj0, hloop⟩ := ih (k + 1) j (by omega) (by omega) hj
      exact ⟨j0, hj0, by rw [pollLoop, if_neg hr]; exact hloop⟩

/-- C7. `restart` performs `stop()`, a fixed 2000 ms settle wait, `start()`,
then polls readiness every 100 ms up to the 60000 ms ceiling: it succeeds at
the first poll at which readiness is observed, and if no poll within the
budget observes readiness it throws the restart-failure error (the spec's
`ServerStartFailure`). -/
theorem restart_spec (ready : Nat → Bool) :
    (restartModel ready).1 = [.stopCalled, .waitedMs RESTART_SETTLE_MS, .startCalled] ∧
    (∀ j, (restartModel ready).2 = .ok j →
      j < RESTART_MAX_WAIT_MS / RESTART_CHECK_INTERVAL_MS ∧ ready j = true ∧
      ∀ m, m < j → ready m = false) ∧
    (∀ j, j < RESTART_MAX_WAIT_MS / RESTART_CHECK_INTERVAL_MS → ready j = true →
      ∃ j0, j0 ≤ j ∧ (restartModel ready).2 = .ok j0) ∧
    ((∀ m, m < RESTART_MAX_WAIT_MS / RESTART_CHECK_INTERVAL_MS → ready m = false) →
      (restartModel ready).2 = .error restartFailureMsg) := by
  refine ⟨rfl, fun j h => ?_, fun j h1 h2 => ?_, fun h => ?_⟩
  · obtain ⟨_, hb, hj, hmin⟩ := pollLoop_ok_sound ready _ 0 j h
    exact ⟨by simpa using hb, hj, fun m hm => hmin m (Nat.zero_le m) hm⟩
  · exact pollLoop_ok_of_ready ready _ 0 j (Nat.zero_le j) (by simpa using h1) h2
  · exact pollLoop_error_of_never ready _ 0 (fun m _ hm => h m (by simpa using hm))

/-- Witness for C7: readiness first observed at poll 3 ⇒ success within 3. -/
theorem restart_spec_witness :
    ∃ j0, j0 ≤ 3 ∧ (restartModel (fun k => decide (k = 3))).2 = .ok j0 :=
  (restart_spec (fun k => decide (k = 3))).2.2.1 3 (by decide) (by decide)

/-! ## Claims about the directory mirror -/

theorem lookupChild_cons (m n : String) (e : FsEntry) (rest : List (String × FsEntry)) :
    lookupChild ((m, e) :: rest) n = if m = n then some e else lookupChild rest n := by
  by_cases h : m = n <;> simp [lookupChild, List.find?, h]

theorem lookupChild_eq_none_of_not_mem {ch : List (String × FsEntry)} {n : String}
    (h : n ∉ ch.map Prod.fst) : lookupChild ch n = none := by
  induction ch with
  | nil => rfl
  | cons c rest ih =>
    obtain ⟨m, e⟩ := c
    simp at h
    rw [lookupChild_cons, if_neg (fun he => h.1 he.symm)]
    exact ih (by simpa using h.2)

theorem lookupChild_setChild_self (ch : List (String × FsEntry)) (n : String) (e : FsEntry) :
    lookupChild (setChild ch n e) n = some e := by
  induction ch with
  | nil => simp [setChild, lookupChild, List.find?]
  | cons c rest ih =>
    obtain ⟨m, x⟩ := c
    by_cases h : m = n
    · simp [setChild, h, lookupChild_cons]
    · simp [setChild, h, lookupChild_cons, ih]

theorem lookupChild_setChild_ne (ch : List (String × FsEntry)) (n m : String) (e : FsEntry)
    (h : m ≠ n) : lookupChild (setChild ch n e) m = lookupChild ch m := by
  induction ch with
  | nil =>
    show lookupChild [(n, e)] m = lookupChild [] m
    rw [lookupChild_cons, if_neg (fun he => h he.symm)]
  | cons c rest ih =>
    obtain ⟨k, x⟩ := c
    by_cases hk : k = n
    · rw [show setChild ((k, x) :: rest) n e = (k, e) :: rest from by simp [setChild, hk]]
      have hkm : ¬(k = m) := fun he => h (he ▸ hk)
      rw [lookupChild_cons, if_neg hkm, lookupChild_cons, if_neg hkm]
    · rw [show setChild ((k, x) :: rest) n e = (k, x) :: setChild rest n e from by
        simp [setChild, hk]]
      rw [lookupChild_cons, lookupChild_cons, ih]

theorem lookupPath_dirL (st : Stat) (ch : List (String × FsEntry)) (n : String)
    (q : List String) : lookupPath (.dir st ch) (n :: q) = lookupPathL ch (n :: q) := rfl

theorem lookupPath_file_cons (st : Stat) (n : String) (q : List String) :
    lookupPath (.file st) (n :: q) = none := rfl

theorem lookupPath_dir_match (st : Stat) (ch : List (String × FsEntry)) (n : String)
    (q : List String) :
    lookupPath (FsEntry.dir st ch) (n :: q) =
      (match lookupChild ch n with
       | none => none
       | some c => lookupPath c q) := rfl

theorem lookupPathL_cons_self (name : String) (e : FsEntry) (rest : List (String × FsEntry))
    (q : List String) :
    lookupPathL ((name, e) :: rest) (name :: q) = lookupPath e q := by
  simp only [lookupPathL]
  rw [lookupChild_cons, if_pos rfl]

theorem lookupPathL_cons_ne {name n : String} (e : FsEntry) (rest : List (String × FsEntry))
    (q : List String) (h : name ≠ n) :
    lookupPathL ((name, e) :: rest) (n :: q) = lookupPathL rest (n :: q) := by
  simp only [lookupPathL]
  rw [lookupChild_cons, if_neg h]

theorem lookupPathL_eq_none_of_not_mem {rest : List (String × FsEntry)} {n : String}
    (q : List String) (h : n ∉ rest.map Prod.fst) :
    lookupPathL rest (n :: q) = none := by
  simp only [lookupPathL]
  rw [lookupChild_eq_none_of_not_mem h]

theorem WfE_dir_inv {st : Stat} {ch : List (String × FsEntry)} (h : WfE (.dir st ch)) :
    WfL ch := by
  cases h with
  | dir _ _ hnodup hch => exact ⟨hnodup, hch⟩

theorem WfL_cons {n : String} {e : FsEntry} {rest : List (String × FsEntry)}
    (h : WfL ((n, e) :: rest)) : WfE e ∧ WfL rest ∧ n ∉ rest.map Prod.fst := by
  obtain ⟨hnodup, hall⟩ := h
  rw [List.map_cons, List.nodup_cons] at hnodup
  exact ⟨hall _ (List.mem_cons_self _ _), ⟨hnodup.2, fun p hp => hall p (List.mem_cons_of_mem _ hp)⟩,
    hnodup.1⟩

/-- The frame property of one `copyDirectoryOptimized` loop invocation: a
destination path that the processed source entries do not reach is looked up
identically before and after. -/
theorem copyGo_frame (now : Int) (entries : List (String × FsEntry)) (d : FsEntry)
    (copied skipped : Nat) (reports : List CopyProgress) :
    ∀ out, copyGo now entries d copied skipped reports = some out → WfL entries →
      ∀ p, p ≠ [] → lookupPathL entries p = none →
        lookupPath out.1 p = lookupPath d p := by
  induction entries, d, copied, skipped, reports using copyGo.induct now with
  | case1 d copied skipped reports =>
    intro out hok _ p _ _
    rw [copyGo] at hok
    have h := Option.some.inj hok
    rw [← h]
  | case2 name st rest copied skipped reports st1 =>
    intro out hok
    rw [copyGo] at hok
    cases hok
  | case3 name st rest copied skipped reports st1 a hshould a1 a2 hdest =>
    intro out hok
    rw [copyGo, if_pos hshould, hdest] at hok
    exact Option.noConfusion hok
  | case4 name st rest copied skipped reports st1 a hshould d1 reports1 hnotdir ih =>
    intro out hok wf p hp hnone
    obtain ⟨hwe, hwrest, hnm⟩ := WfL_cons wf
    rw [copyGo, if_pos hshould] at hok
    have hok' : copyGo now rest
        (FsEntry.dir st1 (setChild a name (FsEntry.file ⟨st.size, now⟩))) (copied + 1) skipped
        (if (copied + 1) % 5 = 0 then reports ++ [⟨copied + 1, skipped⟩] else reports) =
        some out := by
      revert hok
      cases hdest : lookupChild a name with
      | none => exact fun hok => hok
      | some ce =>
        cases ce with
        | file cst => exact fun hok => hok
        | dir cst cch => exact fun _ => (hnotdir cst cch hdest).elim
    cases p with
    | nil => exact absurd rfl hp
    | cons n q =>
      by_cases hn : name = n
      · subst hn
        rw [lookupPathL_cons_self] at hnone
        have hrest : lookupPathL rest (name :: q) = none :=
          lookupPathL_eq_none_of_not_mem q hnm
        cases q with
        | nil => exact absurd hnone (by simp [lookupPath])
        | cons h t =>
          have hL : lookupPath
              (FsEntry.dir st1 (setChild a name (FsEntry.file ⟨st.size, now⟩)))
              (name :: h :: t) = none := by
            rw [lookupPath_dir_match, lookupChild_setChild_self]
            rfl
          have hR : lookupPath (FsEntry.dir st1 a) (name :: h :: t) = none := by
            rw [lookupPath_dir_match]
            cases hdest : lookupChild a name with
            | none => rfl
            | some ce =>
              cases ce with
              | file cst => rfl
              | dir cst cch => exact (hnotdir cst cch hdest).elim
          calc lookupPath out.1 (name :: h :: t)
              = lookupPath (FsEntry.dir st1 (setChild a name (FsEntry.file ⟨st.size, now⟩)))
                  (name :: h :: t) := ih out hok' hwrest _ hp hrest
            _ = none := hL
            _ = lookupPath (FsEntry.dir st1 a) (name :: h :: t) := hR.symm
      · have hnone' : lookupPathL rest (n :: q) = none := by
          rw [lookupPathL_cons_ne _ _ _ hn] at hnone
          exact hnone
        calc lookupPath out.1 (n :: q)
            = lookupPath (FsEntry.dir st1 (setChild a name (FsEntry.file ⟨st.size, now⟩)))
                (n :: q) := ih out hok' hwrest _ hp hnone'
          _ = lookupPath (FsEntry.dir st1 a) (n :: q) := by
              rw [lookupPath_dir_match, lookupPath_dir_match,
                lookupChild_setChild_ne a name n _ (fun he => hn he.symm)]
  | case5 name st rest copied skipped reports st1 a hshould reports1 ih =>
    intro out hok wf p hp hnone
    obtain ⟨hwe, hwrest, hnm⟩ := WfL_cons wf
    rw [copyGo, if_neg hshould] at hok
    cases p with
    | nil => exact absurd rfl hp
    | cons n q =>
      by_cases hn : name = n
      · subst hn
        have hrest : lookupPathL rest (name :: q) = none :=
          lookupPathL_eq_none_of_not_mem q hnm
        exact ih out hok hwrest (name :: q) hp hrest
      · have hnone' : lookupPathL rest (n :: q) = none := by
          rw [lookupPathL_cons_ne _ _ _ hn] at hnone
          exact hnone
        exact ih out hok hwrest (n :: q) hp hnone'
  | case6 name a sch rest copied skipped reports st =>
    intro out hok
    rw [copyGo] at hok
    cases hok
  | case7 name a sch rest copied skipped reports st a1 childDest hinner ihInner =>
    intro out hok
    have hcd : childDest = (match lookupChild a1 name with
      | none => FsEntry.dir ⟨0, now⟩ []
      | some e => e) := rfl
    rw [copyGo, ← hcd, hinner] at hok
    exact Option.noConfusion hok
  | case8 name a sch rest copied skipped reports st a1 childDest newChild subReports hinner
      ihInner ihRest =>
    intro out hok wf p hp hnone
    obtain ⟨hwe, hwrest, hnm⟩ := WfL_cons wf
    have hcd : childDest = (match lookupChild a1 name with
      | none => FsEntry.dir ⟨0, now⟩ []
      | some e => e) := rfl
    rw [copyGo, ← hcd, hinner] at hok
    have hok' : copyGo now rest (FsEntry.dir st (setChild a1 name newChild)) copied skipped
        (reports ++ subReports) = some out := hok
    cases p with
    | nil => exact absurd rfl hp
    | cons n q =>
      by_cases hn : name = n
      · subst hn
        rw [lookupPathL_cons_self] at hnone
        cases q with
        | nil => exact absurd hnone (by simp [lookupPath])
        | cons h t =>
          have hsch : lookupPathL sch (h :: t) = none := hnone
          have hrest : lookupPathL rest (name :: h :: t) = none :=
            lookupPathL_eq_none_of_not_mem _ hnm
          have hInner : lookupPath newChild (h :: t) = lookupPath childDest (h :: t) :=
            ihInner (newChild, subReports) hinner (WfE_dir_inv hwe) (h :: t)
              (List.cons_ne_nil _ _) hsch
          have hMain : lookupPath (FsEntry.dir st (setChild a1 name newChild))
              (name :: h :: t) = lookupPath newChild (h :: t) := by
            rw [lookupPath_dir_match, lookupChild_setChild_self]
          have hDest : lookupPath (FsEntry.dir st a1) (name :: h :: t) =
              lookupPath childDest (h :: t) := by
            rw [lookupPath_dir_match]
            cases hdest : lookupChild a1 name with
            | none =>
              rw [hdest] at hcd
              rw [hcd]
              rfl
            | some ce =>
              rw [hdest] at hcd
              rw [hcd]
          calc lookupPath out.1 (name :: h :: t)
              = lookupPath (FsEntry.dir st (setChild a1 name newChild)) (name :: h :: t) :=
                ihRest out hok' hwrest _ hp hrest
            _ = lookupPath newChild (h :: t) := hMain
            _ = lookupPath childDest (h :: t) := hInner
            _ = lookupPath (FsEntry.dir st a1) (name :: h :: t) := hDest.symm
      · have hnone' : lookupPathL rest (n :: q) = none := by
          rw [lookupPathL_cons_ne _ _ _ hn] at hnone
          exact hnone
        calc lookupPath out.1 (n :: q)
            = lookupPath (FsEntry.dir st (setChild a1 name newChild)) (n :: q) :=
              ihRest out hok' hwrest _ hp hnone'
          _ = lookupPath (FsEntry.dir st a1) (n :: q) := by
              rw [lookupPath_dir_match, lookupPath_dir_match,
                lookupChild_setChild_ne a1 name n _ (fun he => hn he.symm)]

/-- C3. The mirror never removes (or changes) a destination entry at a path
the source does not have: when `copyDirectoryOptimized` completes without
error on a well-formed source tree, every path absent from the source looks
up in the result exactly as it did in the prior destination. -/
theorem copyDirectoryOptimized_frame (now : Int) (src dest : FsEntry)
    (out : FsEntry × List CopyProgress) (hwf : WfE src)
    (hok : copyDirectoryOptimized now src (some dest) = some out) :
    ∀ p, p ≠ [] → lookupPath src p = none →
      lookupPath out.1 p = lookupPath dest p := by
  cases src with
  | file st => exact absurd hok (by simp [copyDirectoryOptimized])
  | dir st entries =>
    intro p hp hnone
    have hok' : copyGo now entries dest 0 0 [] = some out := hok
    have hnone' : lookupPathL entries p = none := by
      cases p with
      | nil => exact absurd rfl hp
      | cons n q => exact hnone
    exact copyGo_frame now entries dest 0 0 [] out hok' (WfE_dir_inv hwf) p hp hnone'

/-- Witness for C3: the pre-existing destination file `keep` (absent from
the source) survives one mirror run unchanged. -/
theorem copyDirectoryOptimized_frame_witness :
    lookupPath (FsEntry.dir ⟨4, 0⟩ [("keep", FsEntry.file ⟨2, 3⟩), ("a", FsEntry.file ⟨1, 9⟩)])
        ["keep"] =
      lookupPath (FsEntry.dir ⟨4, 0⟩ [("keep", FsEntry.file ⟨2, 3⟩)]) ["keep"] := by
  refine copyDirectoryOptimized_frame 9 (FsEntry.dir ⟨0, 0⟩ [("a", FsEntry.file ⟨1, 10⟩)])
    (FsEntry.dir ⟨4, 0⟩ [("keep", FsEntry.file ⟨2, 3⟩)])
    (FsEntry.dir ⟨4, 0⟩ [("keep", FsEntry.file ⟨2, 3⟩), ("a", FsEntry.file ⟨1, 9⟩)], [⟨1, 0⟩])
    ?_ ?_ ["keep"] (by simp) rfl
  · refine WfE.dir _ _ (by simp) ?_
    intro x hx
    simp at hx
    rw [hx]
    exact WfE.file _
  · simp [copyDirectoryOptimized, copyGo, shouldCopyEntry, lookupChild, setChild, List.find?]

/-- Counterexample for C8 as stated: on an empty source directory the code
issues *no* progress report at all — the in-loop report needs a file and the
final report requires `copiedCount > 0` — so no `{copied: 0, skipped: 0}`
report is observed (the report list is empty, not `[{0, 0}]`). -/
theorem copyDirectoryOptimized_empty_cex :
    copyDirectoryOptimized 7 (FsEntry.dir ⟨0, 0⟩ []) none =
      some (FsEntry.dir ⟨0, 7⟩ [], []) ∧
    ([] : List CopyProgress) ≠ [⟨0, 0⟩] := by
  refine ⟨by simp [copyDirectoryOptimized, copyGo], by decide⟩

/-- C8 (amended). With an existing but empty source tree the mirror creates
the destination directory when missing (and leaves an existing one as is),
finishes with counters `{copied: 0, skipped: 0}`, and fires no progress
report. -/
theorem copyDirectoryOptimized_empty_src (now : Int) (st : Stat) (dest : Option FsEntry) :
    copyDirectoryOptimized now (.dir st []) dest =
      some (dest.getD (FsEntry.dir ⟨0, now⟩ []), []) := by
  cases dest <;> simp [copyDirectoryOptimized, copyGo]

/-! ## Claim about panel single-instancing -/

theorem countEv_append (e : PEvent) (l m : List PEvent) :
    countEv e (l ++ m) = countEv e l + countEv e m := by
  induction l with
  | nil => simp [countEv]
  | cons x rest ih => simp [countEv, ih, Nat.add_assoc]

/-- Creations and disposals balance against the panel reference: every
reachable manager state has exactly one undisposed creation when
`previewPanel` is non-null and none otherwise. -/
theorem panelReachable_count {st : PanelState} (h : PanelReachable st) :
    countEv .panelCreated st.events =
      countEv .panelDisposed st.events + (if st.panelOpen then 1 else 0) := by
  induction h with
  | init b => simp [countEv]
  | stepShow ci ready hre ih =>
    rename_i st
    cases hopen : st.panelOpen <;> cases hready : ready <;>
      simp [showPanel, showPreviewContent, hopen, hready, countEv_append, countEv, ih]
  | stepClose hre ih =>
    rename_i st
    cases hopen : st.panelOpen <;>
      simp [closePanel, hopen, countEv_append, countEv, ih]
  | stepUpdateComponent n hre ih =>
    rename_i st
    cases hopen : st.panelOpen <;>
      simp [updateComponent, hopen, countEv_append, countEv, ih]
  | stepUpdateLoadingState b t hre ih =>
    rename_i st
    cases hopen : st.panelOpen <;>
      simp [updateLoadingState, hopen, countEv_append, countEv, ih]
  | stepSendLwrError info hre ih =>
    rename_i st
    cases hopen : st.panelOpen <;> cases herr : st.hasActiveError <;>
      simp [sendLwrError, hopen, herr, countEv_append, countEv, ih]
  | stepClearLwrError hre ih =>
    rename_i st
    cases hopen : st.panelOpen <;> cases herr : st.hasActiveError <;>
      simp [clearLwrError, hopen, herr, countEv_append, countEv, ih]
  | stepOnServerReady ci hre ih =>
    rename_i st
    cases hopen : st.panelOpen <;>
      simp [onServerReady, showPreviewContent, hopen, countEv_append, countEv, ih]
  | stepSetCurrentComponentName n hre ih =>
    rename_i st
    simpa [setCurrentComponentName] using ih
  | stepToggleAutoOpen b hre ih =>
    rename_i st
    simpa [toggleAutoOpen] using ih

/-- C6. Calling `show` with a live panel never creates a second surface: the
panel stays, the trace grows by exactly a reveal (plus, only when the server
is ready, a preview-content replacement for the given component), no
creation event is added — and in every reachable state at most one live
surface exists. -/
theorem showPanel_single_instance :
    (∀ st ci ready, st.panelOpen = true →
      (showPanel ci ready st).panelOpen = true ∧
      (showPanel ci ready st).events =
        st.events ++ [.panelRevealed] ++
          (if ready then [.htmlSet (.preview (ciName ci) LWR_SERVER_PORT st.autoOpenEnabled)]
           else []) ∧
      countEv .panelCreated (showPanel ci ready st).events =
        countEv .panelCreated st.events) ∧
    (∀ st, PanelReachable st → liveSurfaces st ≤ 1) := by
  constructor
  · intro st ci ready ho
    cases hready : ready <;>
      simp [showPanel, showPreviewContent, ho, countEv_append, countEv]
  · intro st h
    have hc := panelReachable_count h
    unfold liveSurfaces
    rw [hc]
    cases st.panelOpen <;> simp

/-- Witness for C6: a second `show` on a live panel, and the surface bound
of a reachable state. -/
theorem showPanel_single_instance_witness :
    (showPanel none true ⟨true, none, false, true, []⟩).panelOpen = true ∧
    liveSurfaces (⟨false, none, false, true, []⟩ : PanelState) ≤ 1 :=
  ⟨(showPanel_single_instance.1 ⟨true, none, false, true, []⟩ none true rfl).1,
   showPanel_single_instance.2 _ (PanelReachable.init true)⟩

end LwcPreview
